import Mathlib

/-
Verification of the shadowsocks local relay core (SOCKS5-to-shadowsocks
client proxy).  The definitions below are shallow embeddings of the Rust
sources:

  - src/crypto/cipher.rs            (cipher registry and key derivation)
  - src/relay/tcprelay/local.rs     (SOCKS5 negotiation and TCP relay)
  - src/relay/tcprelay/stream.rs    (EncryptedWriter / DecryptedReader)
  - src/relay/udprelay/local.rs     (UDP relay)

The SOCKS5 codec (relay/socks5.rs) is not part of the sources; its
serializations are modelled from the specification document and are marked
as such in their doc comments.
-/

namespace SSLocal

/-- The recognized cipher methods: the `CipherType` enum of
crypto/cipher.rs with every cfg feature enabled. -/
inductive CipherType
  | Table
  | Aes128Cfb
  | Aes128Cfb1
  | Aes128Cfb8
  | Aes128Cfb128
  | Aes192Cfb
  | Aes192Cfb1
  | Aes192Cfb8
  | Aes192Cfb128
  | Aes256Cfb
  | Aes256Cfb1
  | Aes256Cfb8
  | Aes256Cfb128
  | Aes128Ofb
  | Aes192Ofb
  | Aes256Ofb
  | Aes128Ctr
  | Aes192Ctr
  | Aes256Ctr
  | BfCfb
  | Camellia128Cfb
  | Camellia192Cfb
  | Camellia256Cfb
  | Cast5Cfb
  | DesCfb
  | IdeaCfb
  | Rc2Cfb
  | Rc4
  | Rc4Md5
  | SeedCfb
  | ChaCha20
  | Salsa20
deriving DecidableEq, Repr

/-- The `CipherType::block_size` table (the IV/nonce length in bytes).  The libsodium
constants `crypto_stream_chacha20_NONCEBYTES` and
`crypto_stream_salsa20_NONCEBYTES` are both 8. -/
def CipherType.block_size : CipherType → Nat
  | .Table => 0
  | .Aes128Cfb => 16
  | .Aes128Cfb1 => 16
  | .Aes128Cfb8 => 16
  | .Aes128Cfb128 => 16
  | .Aes192Cfb => 16
  | .Aes192Cfb1 => 16
  | .Aes192Cfb8 => 16
  | .Aes192Cfb128 => 16
  | .Aes256Cfb => 16
  | .Aes256Cfb1 => 16
  | .Aes256Cfb8 => 16
  | .Aes256Cfb128 => 16
  | .Aes128Ofb => 16
  | .Aes192Ofb => 16
  | .Aes256Ofb => 16
  | .Aes128Ctr => 16
  | .Aes192Ctr => 16
  | .Aes256Ctr => 16
  | .BfCfb => 8
  | .Camellia128Cfb => 16
  | .Camellia192Cfb => 16
  | .Camellia256Cfb => 16
  | .Cast5Cfb => 8
  | .DesCfb => 8
  | .IdeaCfb => 8
  | .Rc2Cfb => 8
  | .Rc4 => 0
  | .Rc4Md5 => 16
  | .SeedCfb => 16
  | .ChaCha20 => 8
  | .Salsa20 => 8

/-- The `CipherType::key_size` table (the derived key length in bytes).  The libsodium
constants `crypto_stream_chacha20_KEYBYTES` and
`crypto_stream_salsa20_KEYBYTES` are both 32. -/
def CipherType.key_size : CipherType → Nat
  | .Table => 0
  | .Aes128Cfb => 16
  | .Aes128Cfb1 => 16
  | .Aes128Cfb8 => 16
  | .Aes128Cfb128 => 16
  | .Aes192Cfb => 24
  | .Aes192Cfb1 => 24
  | .Aes192Cfb8 => 24
  | .Aes192Cfb128 => 24
  | .Aes256Cfb => 32
  | .Aes256Cfb1 => 32
  | .Aes256Cfb8 => 32
  | .Aes256Cfb128 => 32
  | .Aes128Ofb => 16
  | .Aes192Ofb => 24
  | .Aes256Ofb => 32
  | .Aes128Ctr => 16
  | .Aes192Ctr => 24
  | .Aes256Ctr => 32
  | .BfCfb => 16
  | .Camellia128Cfb => 16
  | .Camellia192Cfb => 24
  | .Camellia256Cfb => 32
  | .Cast5Cfb => 16
  | .DesCfb => 8
  | .IdeaCfb => 16
  | .Rc2Cfb => 16
  | .Rc4 => 16
  | .Rc4Md5 => 16
  | .SeedCfb => 16
  | .ChaCha20 => 32
  | .Salsa20 => 32

/-- Rust slice indexing `l[a..b]`: defined when `a ≤ b ≤ l.len()`,
a panic (modelled as `none`) otherwise. -/
def listSlice (l : List Nat) (a b : Nat) : Option (List Nat) :=
  if a ≤ b ∧ b ≤ l.length then some ((l.drop a).take (b - a)) else none

/-- An MD5 digest is 16 bytes (`DigestType::Md5.digest_len()`); the digest
function is treated as an abstract map into 16-byte blocks. -/
def md5ToList (f : Fin 16 → Nat) : List Nat := List.ofFn f

/-- One iteration body of the `bytes_to_key` while loop: with `m` the blocks
computed so far, the next block is `MD5(P)` when `m` is empty (the `i == 0`
branch of cipher.rs) and `MD5(m[i-1] || P)` otherwise. -/
def btkNextBlock (md5 : List Nat → Fin 16 → Nat) (key : List Nat)
    (m : List (List Nat)) : List Nat :=
  match m.getLast? with
  | some prev => md5ToList (md5 (prev ++ key))
  | none => md5ToList (md5 key)

/-- The `while m.len() * digest_len < key_len + iv_len` loop of
`CipherType::bytes_to_key`, written with an explicit iteration bound
(`fuel`); each iteration appends one 16-byte digest, so `fuel = target`
iterations always suffice to leave the loop with its guard false. -/
def btkGo (md5 : List Nat → Fin 16 → Nat) (key : List Nat) (target : Nat) :
    Nat → List (List Nat) → List (List Nat)
  | 0, m => m
  | fuel + 1, m =>
      if m.length * 16 < target then
        btkGo md5 key target fuel (m ++ [btkNextBlock md5 key m])
      else m

/-- Key derivation `CipherType::bytes_to_key` from crypto/cipher.rs: iterate MD5 blocks
until `m.len() * 16 ≥ key_size + block_size`, concatenate, and return the
slice `whole[0 .. key_size]` (Rust slicing panics, hence `Option`). -/
def CipherType.bytes_to_key (t : CipherType) (md5 : List Nat → Fin 16 → Nat)
    (key : List Nat) : Option (List Nat) :=
  let target := t.key_size + t.block_size
  let whole := (btkGo md5 key target target []).flatten
  listSlice whole 0 t.key_size

/-- The digest chain of the spec (§4.1): `D 0 = MD5(P)`,
`D (i+1) = MD5(D i || P)`. -/
def mdStream (md5 : List Nat → Fin 16 → Nat) (key : List Nat) : Nat → List Nat
  | 0 => md5ToList (md5 key)
  | n + 1 => md5ToList (md5 (mdStream md5 key n ++ key))

/-- A concrete stand-in digest used for evaluating witnesses. -/
def md5c : List Nat → Fin 16 → Nat :=
  fun l i => (l.foldl (fun a b => a + 31 * b + 7) 3 + i.val) % 256

theorem md5ToList_length (f : Fin 16 → Nat) : (md5ToList f).length = 16 := by
  simp [md5ToList]

theorem mdStream_length (md5 : List Nat → Fin 16 → Nat) (key : List Nat)
    (n : Nat) : (mdStream md5 key n).length = 16 := by
  cases n <;> simp [mdStream, md5ToList_length]

theorem btkNextBlock_range (md5 : List Nat → Fin 16 → Nat) (key : List Nat)
    (i : Nat) :
    btkNextBlock md5 key ((List.range i).map (mdStream md5 key)) =
      mdStream md5 key i := by
  cases i with
  | zero => simp [btkNextBlock, mdStream]
  | succ n =>
      have h : ((List.range (n + 1)).map (mdStream md5 key)).getLast? =
          some (mdStream md5 key n) := by
        rw [List.range_succ, List.map_append]
        simp
      simp [btkNextBlock, h, mdStream]

theorem btkGo_range (md5 : List Nat → Fin 16 → Nat) (key : List Nat)
    (target : Nat) (fuel : Nat) : ∀ i : Nat,
    ∃ n : Nat, i ≤ n ∧
      btkGo md5 key target fuel ((List.range i).map (mdStream md5 key)) =
        (List.range n).map (mdStream md5 key) := by
  induction fuel with
  | zero => intro i; exact ⟨i, le_refl i, rfl⟩
  | succ fuel ih =>
      intro i
      by_cases h : ((List.range i).map (mdStream md5 key)).length * 16 < target
      · have hstep : (List.range i).map (mdStream md5 key) ++
            [btkNextBlock md5 key ((List.range i).map (mdStream md5 key))] =
            (List.range (i + 1)).map (mdStream md5 key) := by
          rw [btkNextBlock_range, List.range_succ, List.map_append]
          rfl
        obtain ⟨n, hn, hb⟩ := ih (i + 1)
        refine ⟨n, Nat.le_of_succ_le hn, ?_⟩
        rw [btkGo, if_pos h, hstep, hb]
      · exact ⟨i, le_refl i, by rw [btkGo, if_neg h]⟩

theorem btkGo_exits (md5 : List Nat → Fin 16 → Nat) (key : List Nat)
    (target : Nat) : ∀ fuel : Nat, ∀ m : List (List Nat),
    target ≤ (m.length + fuel) * 16 →
    target ≤ (btkGo md5 key target fuel m).length * 16 := by
  intro fuel
  induction fuel with
  | zero => intro m h; simpa [btkGo] using h
  | succ fuel ih =>
      intro m h
      by_cases hg : m.length * 16 < target
      · rw [btkGo, if_pos hg]
        apply ih
        have : (m ++ [btkNextBlock md5 key m]).length = m.length + 1 := by simp
        rw [this]
        omega
      · rw [btkGo, if_neg hg]; omega

theorem join_range_length (md5 : List Nat → Fin 16 → Nat) (key : List Nat) :
    ∀ n : Nat,
    (((List.range n).map (mdStream md5 key)).flatten).length = 16 * n := by
  intro n
  induction n with
  | zero => simp
  | succ n ih =>
      rw [List.range_succ, List.map_append, List.flatten_append]
      simp only [List.length_append, ih]
      simp [mdStream_length]
      omega

theorem join_range_take (md5 : List Nat → Fin 16 → Nat) (key : List Nat)
    (ks : Nat) : ∀ a b : Nat, a ≤ b → ks ≤ 16 * a →
    (((List.range a).map (mdStream md5 key)).flatten).take ks =
      (((List.range b).map (mdStream md5 key)).flatten).take ks := by
  intro a b hab hks
  have hsplit : List.range b = List.range a ++ List.range' a (b - a) := by
    have := List.range_add a (b - a)
    rw [Nat.add_sub_cancel' hab] at this
    rw [this]
    congr 1
    exact (List.range'_eq_map_range a (b - a)).symm
  rw [hsplit, List.map_append, List.flatten_append,
    List.take_append_of_le_length]
  rw [join_range_length]
  omega

/-- C3 backbone: `bytes_to_key` computes some list of blocks
`(range n).map D` whose concatenation is at least `key_size + block_size`
bytes long. -/
theorem bytes_to_key_blocks (t : CipherType) (md5 : List Nat → Fin 16 → Nat)
    (key : List Nat) :
    ∃ n : Nat, t.key_size + t.block_size ≤ 16 * n ∧
      btkGo md5 key (t.key_size + t.block_size) (t.key_size + t.block_size)
          [] = (List.range n).map (mdStream md5 key) := by
  obtain ⟨n, _, hb⟩ :=
    btkGo_range md5 key (t.key_size + t.block_size)
      (t.key_size + t.block_size) 0
  refine ⟨n, ?_, by simpa using hb⟩
  have hx := btkGo_exits md5 key (t.key_size + t.block_size)
    (t.key_size + t.block_size) [] (by simp; omega)
  rw [show ((List.range 0).map (mdStream md5 key)) = [] from rfl] at hb
  rw [hb] at hx
  simpa [List.length_map, List.length_range, Nat.mul_comm] using hx

/-- C3: `bytes_to_key(M, P)` returns exactly the first `key_size(M)` bytes
of the concatenation `D1 || D2 || ...` with `D1 = MD5(P)` and
`D(i+1) = MD5(Di || P)`, and the result always has length `key_size(M)`,
whatever number of MD5 blocks the internal loop computes. -/
theorem bytes_to_key_md5_prefix (t : CipherType)
    (md5 : List Nat → Fin 16 → Nat) (key : List Nat) (n : Nat)
    (h : t.key_size ≤ 16 * n) :
    t.bytes_to_key md5 key =
      some ((((List.range n).map (mdStream md5 key)).flatten).take
        t.key_size) ∧
    Option.map List.length (t.bytes_to_key md5 key) = some t.key_size := by
  obtain ⟨N, hN, hb⟩ := bytes_to_key_blocks t md5 key
  have hwlen : ((btkGo md5 key (t.key_size + t.block_size)
      (t.key_size + t.block_size) []).flatten).length = 16 * N := by
    rw [hb, join_range_length]
  have hks : t.key_size ≤ 16 * N := le_trans (Nat.le_add_right _ _) hN
  have hslice : t.bytes_to_key md5 key =
      some (((btkGo md5 key (t.key_size + t.block_size)
        (t.key_size + t.block_size) []).flatten).take t.key_size) := by
    rw [CipherType.bytes_to_key, listSlice]
    rw [if_pos ⟨Nat.zero_le _, by rw [hwlen]; omega⟩]
    simp
  have htake : ((btkGo md5 key (t.key_size + t.block_size)
      (t.key_size + t.block_size) []).flatten).take t.key_size =
      (((List.range n).map (mdStream md5 key)).flatten).take t.key_size := by
    rw [hb]
    rcases Nat.le_total N n with hle | hle
    · exact join_range_take md5 key t.key_size N n hle hks
    · exact (join_range_take md5 key t.key_size n N hle h).symm
  constructor
  · rw [hslice, htake]
  · rw [hslice, Option.map_some']
    congr 1
    rw [List.length_take]
    omega

/-- Closed witness for `bytes_to_key_md5_prefix` at a concrete method,
password and digest stand-in. -/
theorem bytes_to_key_md5_prefix_witness :
    CipherType.bytes_to_key CipherType.Aes256Cfb md5c [1, 2] =
      some ((((List.range 2).map (mdStream md5c [1, 2])).flatten).take
        (CipherType.key_size CipherType.Aes256Cfb)) ∧
    Option.map List.length
        (CipherType.bytes_to_key CipherType.Aes256Cfb md5c [1, 2]) =
      some (CipherType.key_size CipherType.Aes256Cfb) :=
  bytes_to_key_md5_prefix CipherType.Aes256Cfb md5c [1, 2] 2 (by decide)

/-- IV generation `gen_init_vec` from crypto/cipher.rs: a vector of `block_size` bytes
filled from the thread CSPRNG; the generator is abstracted as a byte
source `rng`. -/
def gen_init_vec (t : CipherType) (rng : Nat → Nat) : List Nat :=
  (List.range t.block_size).map rng

theorem gen_init_vec_length (t : CipherType) (rng : Nat → Nat) :
    (gen_init_vec t rng).length = t.block_size := by
  simp [gen_init_vec]

/-- The streaming cipher capability of crypto/cipher.rs (`trait Cipher`):
an abstract stateful transformer with `update` and `finalize`.  Cipher
errors are out of scope for the claims treated here, so both operations
are total. -/
structure StreamCipher (σ : Type) where
  update : σ → List Nat → σ × List Nat
  finalize : σ → σ × List Nat

/-- Feed a sequence of buffers through `update`, returning the final state
and the per-buffer outputs. -/
def cipherRun {σ : Type} (c : StreamCipher σ) : σ → List (List Nat) →
    σ × List (List Nat)
  | s, [] => (s, [])
  | s, x :: xs =>
      let p := c.update s x
      let q := cipherRun c p.1 xs
      (q.1, p.2 :: q.2)

/-- The identity stream cipher (output = input, empty tail), used to
evaluate witnesses on concrete inputs. -/
def idCipher : StreamCipher Unit :=
  ⟨fun _ d => ((), d), fun _ => ((), [])⟩

/-- SOCKS5 address (relay/socks5.rs `Address`, modelled from the spec §3:
IPv4, IPv6 or domain plus port). -/
inductive Address
  | ipv4 (a b c d : Nat) (port : Nat)
  | domain (name : List Nat) (port : Nat)
  | ipv6 (bytes : List Nat) (port : Nat)
deriving DecidableEq, Repr

/-- Big-endian 2-byte port. -/
def portBytes (p : Nat) : List Nat := [p / 256 % 256, p % 256]

/-- Modelled from the spec: relay/socks5.rs is not under src/.  §4.3 gives
the wire form of an address: `atyp 0x01` + 4 IPv4 bytes + port,
`atyp 0x03` + 1-byte length + name + port, `atyp 0x04` + 16 IPv6 bytes +
port. -/
def addressBytes : Address → List Nat
  | .ipv4 a b c d p => 1 :: a :: b :: c :: d :: portBytes p
  | .domain name p => 3 :: name.length :: (name ++ portBytes p)
  | .ipv6 bytes p => 4 :: (bytes ++ portBytes p)

/-- Well-formedness of an address: byte-sized components, 16-bit port, and
a nonempty domain of at most 255 bytes. -/
def Address.wf : Address → Prop
  | .ipv4 a b c d p => a < 256 ∧ b < 256 ∧ c < 256 ∧ d < 256 ∧ p < 65536
  | .domain name p => 0 < name.length ∧ name.length < 256 ∧ p < 65536
  | .ipv6 bytes p => bytes.length = 16 ∧ p < 65536

instance : DecidablePred Address.wf := by
  intro a
  cases a <;> simp [Address.wf] <;> infer_instance

/-- Modelled from the spec: relay/socks5.rs is not under src/.
`Address::read_from` parses one address from the front of a byte stream
(§4.3) and leaves the remainder; unknown `atyp` or a short buffer fails. -/
def parseAddress (l : List Nat) : Option (Address × List Nat) :=
  match l with
  | 1 :: a :: b :: c :: d :: ph :: pl :: rest =>
      some (.ipv4 a b c d (ph * 256 + pl), rest)
  | 3 :: len :: rest =>
      if len = 0 then none
      else if len + 2 ≤ rest.length then
        match rest.drop len with
        | ph :: pl :: r =>
            some (.domain (rest.take len) (ph * 256 + pl), r)
        | _ => none
      else none
  | 4 :: rest =>
      if 18 ≤ rest.length then
        match rest.drop 16 with
        | ph :: pl :: r => some (.ipv6 (rest.take 16) (ph * 256 + pl), r)
        | _ => none
      else none
  | _ => none

/-- SOCKS5 UDP associate header (`UdpAssociateHeader`): fragment number
and destination address (the 2 reserved bytes are not stored). -/
structure UdpAssociateHeader where
  frag : Nat
  address : Address
deriving DecidableEq, Repr

/-- Modelled from the spec: relay/socks5.rs is not under src/.
`UdpAssociateHeader::read_from` consumes the 2 reserved bytes, the FRAG
byte and the address (§3), leaving the datagram payload. -/
def parseUdpHeader (l : List Nat) : Option (UdpAssociateHeader × List Nat) :=
  match l with
  | _r0 :: _r1 :: fr :: rest =>
      match parseAddress rest with
      | some (a, rem) => some (⟨fr, a⟩, rem)
      | none => none
  | _ => none

/-- Modelled from the spec: relay/socks5.rs is not under src/.  §4.6 step 6
specifies the plaintext assembled on the shadowsocks request path as the
destination address bytes followed by the datagram remainder, so the
header's contribution (`request.write_to` in udprelay/local.rs) is the
serialized address. -/
def udpRequestHeaderBytes (h : UdpAssociateHeader) : List Nat :=
  addressBytes h.address

/-- SOCKS5 reply codes (spec §3, `TcpResponseHeader.reply`). -/
inductive Reply
  | Succeeded
  | GeneralFailure
  | ConnectionNotAllowed
  | NetworkUnreachable
  | HostUnreachable
  | ConnectionRefused
  | TtlExpired
  | CommandNotSupported
  | AddressTypeNotSupported
deriving DecidableEq, Repr

def Reply.code : Reply → Nat
  | .Succeeded => 0
  | .GeneralFailure => 1
  | .ConnectionNotAllowed => 2
  | .NetworkUnreachable => 3
  | .HostUnreachable => 4
  | .ConnectionRefused => 5
  | .TtlExpired => 6
  | .CommandNotSupported => 7
  | .AddressTypeNotSupported => 8

/-- Modelled from the spec: relay/socks5.rs is not under src/.
`TcpResponseHeader{ver=0x05, reply, rsv=0x00, address}` on the wire. -/
def tcpResponseBytes (r : Reply) (a : Address) : List Nat :=
  5 :: r.code :: 0 :: addressBytes a

/-- Constant `SOCKS5_AUTH_METHOD_NONE` (modelled from the spec: 0x00). -/
def authMethodNone : Nat := 0

/-- Constant `SOCKS5_AUTH_METHOD_NOT_ACCEPTABLE` (modelled from the spec: 0xFF). -/
def authMethodNotAcceptable : Nat := 255

/-- Modelled from the spec: `HandshakeResponse{ver=0x05, method}` on the
wire. -/
def handshakeResponseBytes (m : Nat) : List Nat := [5, m]

/-- SOCKS5 request commands (`socks5::Command`). -/
inductive Command
  | TcpConnect
  | TcpBind
  | UdpAssociate
deriving DecidableEq, Repr

/-- The `std::io::IoErrorKind` values visible in tcprelay/local.rs plus a
sample of the other kinds of the old Rust standard library. -/
inductive IoErrorKind
  | EndOfFile
  | ConnectionFailed
  | ConnectionRefused
  | ConnectionReset
  | ConnectionAborted
  | BrokenPipe
  | OtherIoError
  | TimedOut
  | NotConnected
  | PermissionDenied
deriving DecidableEq, Repr

/-- The `handle_request` function from udprelay/local.rs, for one client datagram (the
caller guarantees its length is at least 4): drop when the FRAG byte
`buf[2]` is nonzero, otherwise parse the `UdpAssociateHeader`, build
`wbuf = header-bytes ++ remainder`, run the freshly created encryptor
(`update` on `wbuf`, then `finalize`), and send one datagram
`IV ++ update-output ++ finalize-output` to the server (`none` = nothing
sent; a parse failure panics the worker thread, so also sends nothing). -/
def handle_request {σ : Type} (c : StreamCipher σ) (s0 : σ) (t : CipherType)
    (rng : Nat → Nat) (msg : List Nat) : Option (List Nat) :=
  if msg[2]? ≠ some 0 then none
  else
    match parseUdpHeader msg with
    | none => none
    | some (hdr, rest) =>
        let wbuf := udpRequestHeaderBytes hdr ++ rest
        let p1 := c.update s0 wbuf
        let p2 := c.finalize p1.1
        some (gen_init_vec t rng ++ p1.2 ++ p2.2)

/-- The slices taken by `handle_response` in udprelay/local.rs when it
builds the decryptor: `buf[0 .. block_size]` (the IV) and
`buf[block_size ..]` (the ciphertext). -/
def responseDecryptorInputs (t : CipherType) (msg : List Nat) :
    Option (List Nat × List Nat) :=
  match listSlice msg 0 t.block_size, listSlice msg t.block_size
      msg.length with
  | some ivp, some ct => some (ivp, ct)
  | _, _ => none

/-- What the UDP receive loop of `UdpRelayLocal::run` does with a datagram
of length `len`: drop short datagrams, dispatch by source otherwise. -/
inductive RecvAction
  | dropped
  | handleResponse
  | handleRequest
deriving DecidableEq, Repr

def udpRecvDispatch (len : Nat) (fromServer : Bool) : RecvAction :=
  if len < 4 then .dropped
  else if fromServer then .handleResponse else .handleRequest

theorem parseAddress_roundtrip (a : Address) (rest : List Nat)
    (h : a.wf) : parseAddress (addressBytes a ++ rest) = some (a, rest) := by
  cases a with
  | ipv4 x y z w p =>
      obtain ⟨-, -, -, -, hp⟩ := h
      have harith : p / 256 % 256 * 256 + p % 256 = p := by omega
      simp only [addressBytes, portBytes, List.cons_append, parseAddress,
        harith, List.nil_append]
  | domain name p =>
      obtain ⟨h0, -, hp⟩ := h
      have hne : name.length ≠ 0 := by omega
      have harith : p / 256 % 256 * 256 + p % 256 = p := by omega
      simp only [addressBytes, portBytes, List.cons_append, parseAddress]
      rw [if_neg hne, List.append_assoc]
      have hlen : name.length + 2 ≤
          (name ++ ([p / 256 % 256, p % 256] ++ rest)).length := by
        simp
      rw [if_pos hlen]
      have hdrop : ((name ++ ([p / 256 % 256, p % 256] ++ rest))).drop
          name.length = p / 256 % 256 :: p % 256 :: rest := by
        rw [List.drop_append_of_le_length (le_refl _)]
        simp
      have htake : ((name ++ ([p / 256 % 256, p % 256] ++ rest))).take
          name.length = name := by
        rw [List.take_append_of_le_length (le_refl _)]
        simp
      rw [hdrop, htake]
      simp [harith]
  | ipv6 bytes p =>
      obtain ⟨h16, hp⟩ := h
      have harith : p / 256 % 256 * 256 + p % 256 = p := by omega
      simp only [addressBytes, portBytes, List.cons_append, parseAddress]
      rw [List.append_assoc]
      have hlen : 18 ≤ (bytes ++ ([p / 256 % 256, p % 256] ++ rest)).length := by
        simp [h16]
        omega
      rw [if_pos hlen]
      have hdrop : ((bytes ++ ([p / 256 % 256, p % 256] ++ rest))).drop 16 =
          p / 256 % 256 :: p % 256 :: rest := by
        rw [← h16, List.drop_append_of_le_length (le_refl _)]
        simp
      have htake : ((bytes ++ ([p / 256 % 256, p % 256] ++ rest))).take 16 =
          bytes := by
        rw [← h16, List.take_append_of_le_length (le_refl _)]
        simp
      rw [hdrop, htake]
      simp [harith]

/-- C2: for an accepted client datagram (FRAG byte 0, parsable
destination), `handle_request` sends exactly one datagram, equal to
`IV ++ ciphertext` where `|IV| = iv_size(method)` and the ciphertext is
the one-shot `update`-then-`finalize` encryption of exactly the
destination address bytes followed by the remainder of the datagram. -/
theorem udp_request_encrypt_forward {σ : Type} (c : StreamCipher σ)
    (s0 : σ) (t : CipherType) (rng : Nat → Nat) (r0 r1 : Nat) (a : Address)
    (payload : List Nat) (h : a.wf) :
    handle_request c s0 t rng
        (r0 :: r1 :: 0 :: (addressBytes a ++ payload)) =
      some (gen_init_vec t rng
        ++ (c.update s0 (addressBytes a ++ payload)).2
        ++ (c.finalize (c.update s0 (addressBytes a ++ payload)).1).2) ∧
    (gen_init_vec t rng).length = t.block_size := by
  refine ⟨?_, gen_init_vec_length t rng⟩
  rw [handle_request, if_neg (by simp)]
  have hparse : parseUdpHeader (r0 :: r1 :: 0 :: (addressBytes a ++ payload))
      = some (⟨0, a⟩, payload) := by
    simp only [parseUdpHeader, parseAddress_roundtrip a payload h]
  rw [hparse]
  simp [udpRequestHeaderBytes]

/-- Closed witness for `udp_request_encrypt_forward`. -/
theorem udp_request_encrypt_forward_witness :
    handle_request idCipher () CipherType.Aes128Cfb (fun i => i)
        (0 :: 0 :: 0 ::
          (addressBytes (Address.ipv4 127 0 0 1 80) ++ [113, 117])) =
      some (gen_init_vec CipherType.Aes128Cfb (fun i => i)
        ++ (idCipher.update ()
            (addressBytes (Address.ipv4 127 0 0 1 80) ++ [113, 117])).2
        ++ (idCipher.finalize (idCipher.update ()
            (addressBytes (Address.ipv4 127 0 0 1 80) ++ [113, 117])).1).2) ∧
    (gen_init_vec CipherType.Aes128Cfb (fun i => i)).length =
      CipherType.block_size CipherType.Aes128Cfb :=
  udp_request_encrypt_forward idCipher () CipherType.Aes128Cfb (fun i => i)
    0 0 (Address.ipv4 127 0 0 1 80) [113, 117]
    ⟨by norm_num, by norm_num, by norm_num, by norm_num, by norm_num⟩

/-- C6 counterexample: the `len ≥ 4` receive-loop guard does not keep the
response handler's slices in bounds — with method aes-256-cfb
(iv_size 16) a 4-byte datagram makes `buf[0 .. 16]` out of range. -/
theorem response_slice_guard_counterexample :
    ¬ (∀ (t : CipherType) (msg : List Nat), 4 ≤ msg.length →
        (responseDecryptorInputs t msg).isSome = true) := by
  intro h
  have h4 := h CipherType.Aes256Cfb [0, 0, 0, 0] (by norm_num)
  have hn : (responseDecryptorInputs CipherType.Aes256Cfb
      [0, 0, 0, 0]).isSome = false := by decide
  rw [h4] at hn
  exact Bool.noConfusion hn

/-- C6 amended: the response handler's accesses `buf[0 .. iv_size(M)]` and
`buf[iv_size(M) ..]` stay within the datagram's bounds exactly when the
datagram's length is at least `iv_size(M)`; the receive loop's `len ≥ 4`
guard alone guarantees this only for methods whose `iv_size` is at
most 4. -/
theorem response_slice_bounds_iff (t : CipherType) (msg : List Nat) :
    (responseDecryptorInputs t msg).isSome = true ↔
      t.block_size ≤ msg.length := by
  by_cases h1 : t.block_size ≤ msg.length
  · simp [responseDecryptorInputs, listSlice, h1, Nat.zero_le]
  · simp [responseDecryptorInputs, listSlice, h1]

/-- Closed witness for `response_slice_bounds_iff`. -/
theorem response_slice_bounds_iff_witness :
    (responseDecryptorInputs CipherType.Aes128Cfb
      (List.replicate 20 7)).isSome = true :=
  (response_slice_bounds_iff CipherType.Aes128Cfb
    (List.replicate 20 7)).mpr (by decide)

/-- C7: a datagram shorter than 4 bytes is dropped by the receive loop
(forwarded nowhere), and a client request whose FRAG byte `buf[2]` is
nonzero makes the request handler return without sending any datagram. -/
theorem udp_drop_short_and_frag {σ : Type} (c : StreamCipher σ) (s0 : σ)
    (t : CipherType) (rng : Nat → Nat) (len : Nat) (fromServer : Bool)
    (msg : List Nat) (f : Nat) (hlen : len < 4) (hf : msg[2]? = some f)
    (hfz : f ≠ 0) :
    udpRecvDispatch len fromServer = .dropped ∧
    handle_request c s0 t rng msg = none := by
  constructor
  · simp [udpRecvDispatch, hlen]
  · rw [handle_request, if_pos]
    rw [hf]
    simp [hfz]

/-- Closed witness for `udp_drop_short_and_frag`. -/
theorem udp_drop_short_and_frag_witness :
    udpRecvDispatch 2 false = .dropped ∧
    handle_request idCipher () CipherType.Table (fun i => i)
      [0, 0, 1, 9] = none :=
  udp_drop_short_and_frag idCipher () CipherType.Table (fun i => i) 2 false
    [0, 0, 1, 9] 1 (by norm_num) (by decide) (by norm_num)

/-- Split a byte stream into the successive reads of a copy loop staged
through a bounded buffer (`BUFFER_SIZE = 2048` in stream.rs); each read
returns at most `n` bytes.  The structural bound `fuel` equals the stream
length, which always suffices. -/
def chunksOfGo (n : Nat) : Nat → List Nat → List (List Nat)
  | 0, _ => []
  | _ + 1, [] => []
  | fuel + 1, x :: xs =>
      (x :: xs).take n :: chunksOfGo n fuel ((x :: xs).drop n)

def chunksOf (n : Nat) (l : List Nat) : List (List Nat) :=
  chunksOfGo n l.length l

/-- The observable I/O events of one `TcpRelayLocal::handle_client` run.
`toClient` is a flushed write to the accepted SOCKS5 stream, the
`toRemote` events are writes to the remote server stream (`Plain` for the
raw IV, `Cipher` for output of the encryptor), `encPlain` is a plaintext
buffer fed to the encryptor, `readRemoteIV` is the `read_exact` of the
remote IV, and `decCipher` is a ciphertext buffer fed to the decryptor. -/
inductive Ev
  | toClient (bytes : List Nat)
  | readRequest
  | dialAttempt
  | toRemotePlain (bytes : List Nat)
  | toRemoteCipher (bytes : List Nat)
  | readRemoteIV (bytes : List Nat)
  | encPlain (bytes : List Nat)
  | decCipher (bytes : List Nat)
deriving DecidableEq, Repr

/-- Events of the plaintext-to-ciphertext copy through `EncryptedWriter`:
each written buffer is fed to `Cipher::update` and the output goes to the
remote stream. -/
def encEvents {σ : Type} (c : StreamCipher σ) : σ → List (List Nat) → List Ev
  | _, [] => []
  | s, x :: xs =>
      let p := c.update s x
      .encPlain x :: .toRemoteCipher p.2 :: encEvents c p.1 xs

/-- Events of the ciphertext-to-plaintext copy through `DecryptedReader`:
each buffer read from the remote is fed to `Cipher::update` and the output
goes to the client stream. -/
def decEvents {σ : Type} (c : StreamCipher σ) : σ → List (List Nat) → List Ev
  | _, [] => []
  | s, x :: xs =>
      let p := c.update s x
      .decCipher x :: .toClient p.2 :: decEvents c p.1 xs

/-- The CONNECT path of `handle_client` after a successful dial
(tcprelay/local.rs lines 186-247), as a trace: write the fresh IV raw to
the remote, write (and flush) the SOCKS5 success reply to the client,
push the destination address and then the client's chunks through the
encryptor (the spawned copy task), with the encryptor's `finalize` output
written at `EncryptedWriter` drop; read exactly `block_size` IV bytes from
the remote, then push the remaining remote bytes through the decryptor
toward the client, appending the decryptor's nonempty `finalize` output.
The two copy tasks run concurrently; this list fixes one serialization,
and every property stated about it reads a single channel's projection,
which is the same in every interleaving. -/
def connect_success_events {σ : Type} (encC decC : StreamCipher σ)
    (e0 d0 : σ) (t : CipherType) (rng : Nat → Nat) (dst sockname : Address)
    (localChunks : List (List Nat)) (remoteStream : List Nat) : List Ev :=
  let iv := gen_init_vec t rng
  let encIn := addressBytes dst :: localChunks
  let efin := (encC.finalize (cipherRun encC e0 encIn).1).2
  let decIn := chunksOf 2048 (remoteStream.drop t.block_size)
  let dfin := (decC.finalize (cipherRun decC d0 decIn).1).2
  [Ev.toRemotePlain iv,
   Ev.toClient (tcpResponseBytes Reply.Succeeded sockname)]
  ++ encEvents encC e0 encIn
  ++ [Ev.toRemoteCipher efin]
  ++ [Ev.readRemoteIV (remoteStream.take t.block_size)]
  ++ decEvents decC d0 decIn
  ++ (if dfin = [] then [] else [Ev.toClient dfin])

/-- The handshake `TcpRelayLocal::do_handshake`: read the handshake request; when
`0x00 ∉ methods` write `HandshakeResponse{0xFF}` and fail, otherwise write
`HandshakeResponse{0x00}` and succeed. -/
def do_handshake (methods : List Nat) : List (List Nat) × Bool :=
  if methods.contains authMethodNone = false then
    ([handshakeResponseBytes authMethodNotAcceptable], false)
  else
    ([handshakeResponseBytes authMethodNone], true)

/-- The dial-failure classification of `handle_client` (tcprelay/local.rs
lines 168-183): `ConnectionAborted | ConnectionReset | ConnectionRefused |
ConnectionFailed` answer `HostUnreachable`, every other kind answers
`NetworkUnreachable`. -/
def classifyDialError (k : IoErrorKind) : Reply :=
  match k with
  | .ConnectionAborted => .HostUnreachable
  | .ConnectionReset => .HostUnreachable
  | .ConnectionRefused => .HostUnreachable
  | .ConnectionFailed => .HostUnreachable
  | _ => .NetworkUnreachable

/-- The function `TcpRelayLocal::handle_client` as a trace.  A failed handshake returns
before the request header is read (`try_result!`); afterwards the request
is read and dispatched by command; a CONNECT first dials the remote, and
a dial error answers the classified reply and returns.  The parsed request
(`cmd`, `dst`) and the dial outcome are parameters; `sockname` is the
accepted socket's local name. -/
def handle_client {σ : Type} (encC decC : StreamCipher σ) (e0 d0 : σ)
    (t : CipherType) (rng : Nat → Nat) (methods : List Nat) (cmd : Command)
    (dst sockname : Address) (dialErr : Option IoErrorKind)
    (localChunks : List (List Nat)) (remoteStream : List Nat)
    (enable_udp : Bool) : List Ev :=
  match do_handshake methods with
  | (sent, false) => sent.map Ev.toClient
  | (sent, true) =>
      sent.map Ev.toClient ++ [Ev.readRequest] ++
      match cmd with
      | .TcpConnect =>
          Ev.dialAttempt ::
          (match dialErr with
           | some k =>
               [Ev.toClient (tcpResponseBytes (classifyDialError k) dst)]
           | none =>
               connect_success_events encC decC e0 d0 t rng dst sockname
                 localChunks remoteStream)
      | .TcpBind =>
          [Ev.toClient (tcpResponseBytes Reply.CommandNotSupported dst)]
      | .UdpAssociate =>
          if enable_udp then
            [Ev.toClient (tcpResponseBytes Reply.Succeeded sockname)]
          else
            [Ev.toClient (tcpResponseBytes Reply.CommandNotSupported dst)]

def Ev.isRemotePlainSend : Ev → Bool
  | .toRemotePlain _ => true
  | _ => false

def Ev.isRemoteCipherSend : Ev → Bool
  | .toRemoteCipher _ => true
  | _ => false

def Ev.isRemoteSend (e : Ev) : Bool :=
  e.isRemotePlainSend || e.isRemoteCipherSend

def Ev.isIvRead : Ev → Bool
  | .readRemoteIV _ => true
  | _ => false

def Ev.isDecIn : Ev → Bool
  | .decCipher _ => true
  | _ => false

/-- The bytes written on the remote channel, in order. -/
def remoteSends (tr : List Ev) : List Ev := tr.filter Ev.isRemoteSend

/-- The byte groups written to the local client, in order. -/
def clientSends (tr : List Ev) : List (List Nat) :=
  tr.filterMap fun e =>
    match e with
    | .toClient b => some b
    | _ => none

/-- The plaintext buffers fed to the encryptor, in order. -/
def encPlains (tr : List Ev) : List (List Nat) :=
  tr.filterMap fun e =>
    match e with
    | .encPlain b => some b
    | _ => none

/-- The raw IV reads from the remote, in order. -/
def ivReads (tr : List Ev) : List (List Nat) :=
  tr.filterMap fun e =>
    match e with
    | .readRemoteIV b => some b
    | _ => none

theorem filter_isRemoteSend_encEvents {σ : Type} (c : StreamCipher σ) :
    ∀ (xs : List (List Nat)) (s : σ),
    List.filter Ev.isRemoteSend (encEvents c s xs) =
      (cipherRun c s xs).2.map Ev.toRemoteCipher := by
  intro xs
  induction xs with
  | nil => intro s; rfl
  | cons x xs ih =>
      intro s
      simp only [encEvents, cipherRun, List.filter_cons]
      rw [ih]
      rfl

theorem filter_isRemoteSend_decEvents {σ : Type} (c : StreamCipher σ) :
    ∀ (xs : List (List Nat)) (s : σ),
    List.filter Ev.isRemoteSend (decEvents c s xs) = [] := by
  intro xs
  induction xs with
  | nil => intro s; rfl
  | cons x xs ih =>
      intro s
      simp only [decEvents, List.filter_cons]
      rw [ih]
      rfl

theorem encEvents_kinds {σ : Type} (c : StreamCipher σ) :
    ∀ (xs : List (List Nat)) (s : σ), ∀ e ∈ encEvents c s xs,
    e.isDecIn = false ∧ e.isIvRead = false ∧ e.isRemotePlainSend = false := by
  intro xs
  induction xs with
  | nil => intro s e he; cases he
  | cons x xs ih =>
      intro s e he
      simp only [encEvents, List.mem_cons] at he
      rcases he with h | h | h
      · subst h; exact ⟨rfl, rfl, rfl⟩
      · subst h; exact ⟨rfl, rfl, rfl⟩
      · exact ih _ e h

theorem decEvents_kinds {σ : Type} (c : StreamCipher σ) :
    ∀ (xs : List (List Nat)) (s : σ), ∀ e ∈ decEvents c s xs,
    e.isIvRead = false ∧ e.isRemotePlainSend = false := by
  intro xs
  induction xs with
  | nil => intro s e he; cases he
  | cons x xs ih =>
      intro s e he
      simp only [decEvents, List.mem_cons] at he
      rcases he with h | h | h
      · subst h; exact ⟨rfl, rfl⟩
      · subst h; exact ⟨rfl, rfl⟩
      · exact ih _ e h

theorem ivReads_encEvents {σ : Type} (c : StreamCipher σ) :
    ∀ (xs : List (List Nat)) (s : σ),
    ivReads (encEvents c s xs) = [] := by
  intro xs
  induction xs with
  | nil => intro s; rfl
  | cons x xs ih =>
      intro s
      simp only [encEvents, ivReads, List.filterMap_cons]
      exact ih _

theorem ivReads_decEvents {σ : Type} (c : StreamCipher σ) :
    ∀ (xs : List (List Nat)) (s : σ),
    ivReads (decEvents c s xs) = [] := by
  intro xs
  induction xs with
  | nil => intro s; rfl
  | cons x xs ih =>
      intro s
      simp only [decEvents, ivReads, List.filterMap_cons]
      exact ih _

theorem filter_isRemoteSend_clientTail (b : Prop) [Decidable b]
    (x : List Nat) :
    List.filter Ev.isRemoteSend (if b then [] else [Ev.toClient x]) = [] := by
  split <;> rfl

theorem ivReads_clientTail (b : Prop) [Decidable b] (x : List Nat) :
    ivReads (if b then [] else [Ev.toClient x]) = [] := by
  split <;> rfl

theorem remoteSends_connect {σ : Type} (encC decC : StreamCipher σ)
    (e0 d0 : σ) (t : CipherType) (rng : Nat → Nat) (dst sockname : Address)
    (localChunks : List (List Nat)) (remoteStream : List Nat) :
    remoteSends (connect_success_events encC decC e0 d0 t rng dst sockname
        localChunks remoteStream) =
      Ev.toRemotePlain (gen_init_vec t rng) ::
        ((cipherRun encC e0 (addressBytes dst :: localChunks)).2.map
            Ev.toRemoteCipher
          ++ [Ev.toRemoteCipher (encC.finalize
              (cipherRun encC e0 (addressBytes dst :: localChunks)).1).2]) := by
  simp only [connect_success_events, remoteSends, List.filter_append,
    List.filter_cons, filter_isRemoteSend_encEvents,
    filter_isRemoteSend_decEvents, filter_isRemoteSend_clientTail]
  simp [Ev.isRemoteSend, Ev.isRemotePlainSend, Ev.isRemoteCipherSend,
    Ev.isIvRead]

theorem clientSends_connect_head {σ : Type} (encC decC : StreamCipher σ)
    (e0 d0 : σ) (t : CipherType) (rng : Nat → Nat) (dst sockname : Address)
    (localChunks : List (List Nat)) (remoteStream : List Nat) :
    (clientSends (connect_success_events encC decC e0 d0 t rng dst sockname
        localChunks remoteStream)).head? =
      some (tcpResponseBytes Reply.Succeeded sockname) := by
  simp [connect_success_events, clientSends, List.filterMap_cons]

theorem encPlains_connect_head {σ : Type} (encC decC : StreamCipher σ)
    (e0 d0 : σ) (t : CipherType) (rng : Nat → Nat) (dst sockname : Address)
    (localChunks : List (List Nat)) (remoteStream : List Nat) :
    (encPlains (connect_success_events encC decC e0 d0 t rng dst sockname
        localChunks remoteStream)).head? = some (addressBytes dst) := by
  simp [connect_success_events, encPlains, encEvents, List.filterMap_cons,
    List.filterMap_append]

theorem ivReads_append (a b : List Ev) :
    ivReads (a ++ b) = ivReads a ++ ivReads b := by
  simp [ivReads]

theorem ivReads_connect {σ : Type} (encC decC : StreamCipher σ)
    (e0 d0 : σ) (t : CipherType) (rng : Nat → Nat) (dst sockname : Address)
    (localChunks : List (List Nat)) (remoteStream : List Nat) :
    ivReads (connect_success_events encC decC e0 d0 t rng dst sockname
        localChunks remoteStream) =
      [remoteStream.take t.block_size] := by
  simp only [connect_success_events, ivReads_append]
  rw [show ∀ c : StreamCipher σ, ∀ s xs, ivReads (decEvents c s xs) = []
    from fun c s xs => ivReads_decEvents c xs s,
    show ∀ c : StreamCipher σ, ∀ s xs, ivReads (encEvents c s xs) = []
    from fun c s xs => ivReads_encEvents c xs s, ivReads_clientTail]
  simp [ivReads, List.filterMap_cons]

/-- C1: on the CONNECT success path, exactly one unencrypted IV of
`iv_size(M)` bytes is the first thing sent to the remote and everything
after it on that channel is encryptor output; the destination address is
the first plaintext fed to the encryptor; exactly one unencrypted IV of
`iv_size(M)` bytes is read from the remote, and no ciphertext reaches the
decryptor before that read; and the first thing written to the local
client in this phase is the flushed SOCKS5 success reply. -/
theorem connect_wire_ordering {σ : Type} (encC decC : StreamCipher σ)
    (e0 d0 : σ) (t : CipherType) (rng : Nat → Nat) (dst sockname : Address)
    (localChunks : List (List Nat)) (remoteStream : List Nat)
    (hbs : t.block_size ≤ remoteStream.length) :
    (remoteSends (connect_success_events encC decC e0 d0 t rng dst sockname
        localChunks remoteStream)).head? =
      some (Ev.toRemotePlain (gen_init_vec t rng)) ∧
    (gen_init_vec t rng).length = t.block_size ∧
    (remoteSends (connect_success_events encC decC e0 d0 t rng dst sockname
        localChunks remoteStream)).countP Ev.isRemotePlainSend = 1 ∧
    (∀ e ∈ (remoteSends (connect_success_events encC decC e0 d0 t rng dst
        sockname localChunks remoteStream)).tail,
      e.isRemoteCipherSend = true) ∧
    (encPlains (connect_success_events encC decC e0 d0 t rng dst sockname
        localChunks remoteStream)).head? = some (addressBytes dst) ∧
    ivReads (connect_success_events encC decC e0 d0 t rng dst sockname
        localChunks remoteStream) = [remoteStream.take t.block_size] ∧
    (remoteStream.take t.block_size).length = t.block_size ∧
    (∃ A B, connect_success_events encC decC e0 d0 t rng dst sockname
        localChunks remoteStream =
        A ++ Ev.readRemoteIV (remoteStream.take t.block_size) :: B ∧
      ∀ e ∈ A, e.isDecIn = false) ∧
    (clientSends (connect_success_events encC decC e0 d0 t rng dst sockname
        localChunks remoteStream)).head? =
      some (tcpResponseBytes Reply.Succeeded sockname) := by
  have hrs := remoteSends_connect encC decC e0 d0 t rng dst sockname
    localChunks remoteStream
  refine ⟨?_, gen_init_vec_length t rng, ?_, ?_,
    encPlains_connect_head encC decC e0 d0 t rng dst sockname localChunks
      remoteStream,
    ivReads_connect encC decC e0 d0 t rng dst sockname localChunks
      remoteStream,
    ?_, ?_,
    clientSends_connect_head encC decC e0 d0 t rng dst sockname localChunks
      remoteStream⟩
  · rw [hrs]
    rfl
  · rw [hrs]
    simp [List.countP_cons, List.countP_append, Ev.isRemotePlainSend,
      List.countP_eq_zero, List.mem_map]
  · rw [hrs]
    intro e he
    simp only [List.tail_cons, List.mem_append, List.mem_map,
      List.mem_singleton] at he
    rcases he with ⟨b, -, rfl⟩ | rfl <;> rfl
  · simp only [List.length_take]
    omega
  · refine ⟨[Ev.toRemotePlain (gen_init_vec t rng),
      Ev.toClient (tcpResponseBytes Reply.Succeeded sockname)] ++
      encEvents encC e0 (addressBytes dst :: localChunks) ++
      [Ev.toRemoteCipher (encC.finalize
        (cipherRun encC e0 (addressBytes dst :: localChunks)).1).2],
      decEvents decC d0 (chunksOf 2048 (remoteStream.drop t.block_size)) ++
      (if (decC.finalize (cipherRun decC d0
          (chunksOf 2048 (remoteStream.drop t.block_size))).1).2 = []
        then []
        else [Ev.toClient (decC.finalize (cipherRun decC d0
          (chunksOf 2048 (remoteStream.drop t.block_size))).1).2]),
      ?_, ?_⟩
    · simp [connect_success_events, List.append_assoc]
    · intro e he
      simp only [List.append_assoc, List.cons_append, List.nil_append,
        List.mem_append, List.mem_cons, List.mem_singleton,
        List.not_mem_nil] at he
      rcases he with rfl | rfl | he | rfl | h
      · rfl
      · rfl
      · exact (encEvents_kinds encC _ e0 e he).1
      · rfl
      · exact h.elim

/-- Closed witness for `connect_wire_ordering`. -/
theorem connect_wire_ordering_witness :
    (remoteSends (connect_success_events idCipher idCipher () ()
        CipherType.Aes128Cfb (fun i => i) (Address.ipv4 127 0 0 1 80)
        (Address.ipv4 10 0 0 1 1080) [[1, 2]]
        (List.replicate 18 0))).head? =
      some (Ev.toRemotePlain
        (gen_init_vec CipherType.Aes128Cfb (fun i => i))) :=
  (connect_wire_ordering idCipher idCipher () () CipherType.Aes128Cfb
    (fun i => i) (Address.ipv4 127 0 0 1 80) (Address.ipv4 10 0 0 1 1080)
    [[1, 2]] (List.replicate 18 0) (by decide)).1

/-- C4: when the dial of the remote fails with kind `k`, the client is sent
exactly the classified `TcpResponseHeader` — `HostUnreachable` precisely
for `ConnectionAborted/Reset/Refused/Failed` and `NetworkUnreachable` for
every other kind — and the connection closes with nothing ever sent to a
remote. -/
theorem dial_error_reply_classification {σ : Type}
    (encC decC : StreamCipher σ) (e0 d0 : σ) (t : CipherType)
    (rng : Nat → Nat) (methods : List Nat) (dst sockname : Address)
    (k : IoErrorKind) (localChunks : List (List Nat))
    (remoteStream : List Nat) (eu : Bool)
    (hm : methods.contains authMethodNone = true) :
    handle_client encC decC e0 d0 t rng methods Command.TcpConnect dst
        sockname (some k) localChunks remoteStream eu =
      [Ev.toClient (handshakeResponseBytes authMethodNone), Ev.readRequest,
       Ev.dialAttempt,
       Ev.toClient (tcpResponseBytes (classifyDialError k) dst)] ∧
    (classifyDialError k = Reply.HostUnreachable ↔
      (k = IoErrorKind.ConnectionAborted ∨ k = IoErrorKind.ConnectionReset ∨
       k = IoErrorKind.ConnectionRefused ∨
       k = IoErrorKind.ConnectionFailed)) ∧
    (¬ (k = IoErrorKind.ConnectionAborted ∨ k = IoErrorKind.ConnectionReset ∨
        k = IoErrorKind.ConnectionRefused ∨
        k = IoErrorKind.ConnectionFailed) →
      classifyDialError k = Reply.NetworkUnreachable) ∧
    remoteSends (handle_client encC decC e0 d0 t rng methods
      Command.TcpConnect dst sockname (some k) localChunks remoteStream eu)
      = [] := by
  have htrace : handle_client encC decC e0 d0 t rng methods
      Command.TcpConnect dst sockname (some k) localChunks remoteStream eu =
      [Ev.toClient (handshakeResponseBytes authMethodNone), Ev.readRequest,
       Ev.dialAttempt,
       Ev.toClient (tcpResponseBytes (classifyDialError k) dst)] := by
    have hmem : authMethodNone ∈ methods := by simpa using hm
    simp [handle_client, do_handshake, hmem]
  refine ⟨htrace, ?_, ?_, ?_⟩
  · cases k <;> simp [classifyDialError]
  · intro hk
    cases k <;> simp_all [classifyDialError]
  · rw [htrace]
    rfl

/-- Closed witness for `dial_error_reply_classification`. -/
theorem dial_error_reply_classification_witness :
    classifyDialError IoErrorKind.ConnectionReset = Reply.HostUnreachable ↔
      (IoErrorKind.ConnectionReset = IoErrorKind.ConnectionAborted ∨
       IoErrorKind.ConnectionReset = IoErrorKind.ConnectionReset ∨
       IoErrorKind.ConnectionReset = IoErrorKind.ConnectionRefused ∨
       IoErrorKind.ConnectionReset = IoErrorKind.ConnectionFailed) :=
  (dial_error_reply_classification idCipher idCipher () () CipherType.Table
    (fun i => i) [0] (Address.ipv4 0 0 0 0 0) (Address.ipv4 0 0 0 0 0)
    IoErrorKind.ConnectionReset [] [] false (by decide)).2.1

/-- C5: when the handshake request's method list does not contain 0x00 the
proxy writes `HandshakeResponse{0xFF}` and terminates before reading any
TCP request and without dialing any remote; when it does, the proxy writes
`HandshakeResponse{0x00}` and proceeds to read the request. -/
theorem handshake_gate {σ : Type} (encC decC : StreamCipher σ) (e0 d0 : σ)
    (t : CipherType) (rng : Nat → Nat) (methods : List Nat) (cmd : Command)
    (dst sockname : Address) (dialErr : Option IoErrorKind)
    (localChunks : List (List Nat)) (remoteStream : List Nat) (eu : Bool) :
    (methods.contains authMethodNone = false →
      handle_client encC decC e0 d0 t rng methods cmd dst sockname dialErr
          localChunks remoteStream eu =
        [Ev.toClient (handshakeResponseBytes authMethodNotAcceptable)] ∧
      Ev.readRequest ∉ handle_client encC decC e0 d0 t rng methods cmd dst
        sockname dialErr localChunks remoteStream eu ∧
      Ev.dialAttempt ∉ handle_client encC decC e0 d0 t rng methods cmd dst
        sockname dialErr localChunks remoteStream eu) ∧
    (methods.contains authMethodNone = true →
      (handle_client encC decC e0 d0 t rng methods cmd dst sockname dialErr
          localChunks remoteStream eu).head? =
        some (Ev.toClient (handshakeResponseBytes authMethodNone)) ∧
      (handle_client encC decC e0 d0 t rng methods cmd dst sockname dialErr
          localChunks remoteStream eu)[1]? = some Ev.readRequest) := by
  constructor
  · intro hm
    have htr : handle_client encC decC e0 d0 t rng methods cmd dst sockname
        dialErr localChunks remoteStream eu =
        [Ev.toClient (handshakeResponseBytes authMethodNotAcceptable)] := by
      have hmem : authMethodNone ∉ methods := by simpa using hm
      simp [handle_client, do_handshake, hmem]
    refine ⟨htr, ?_, ?_⟩
    · rw [htr]; simp
    · rw [htr]; simp
  · intro hm
    have hmem : authMethodNone ∈ methods := by simpa using hm
    constructor <;> simp [handle_client, do_handshake, hmem]

/-- Closed witness for `handshake_gate`. -/
theorem handshake_gate_witness :
    handle_client idCipher idCipher () () CipherType.Table (fun i => i) [2]
        Command.TcpConnect (Address.ipv4 0 0 0 0 0) (Address.ipv4 0 0 0 0 0)
        none [] [] false =
      [Ev.toClient (handshakeResponseBytes authMethodNotAcceptable)] ∧
    (handle_client idCipher idCipher () () CipherType.Table (fun i => i) [0]
        Command.TcpConnect (Address.ipv4 0 0 0 0 0) (Address.ipv4 0 0 0 0 0)
        none [] [] false).head? =
      some (Ev.toClient (handshakeResponseBytes authMethodNone)) :=
  ⟨((handshake_gate idCipher idCipher () () CipherType.Table (fun i => i)
      [2] Command.TcpConnect (Address.ipv4 0 0 0 0 0)
      (Address.ipv4 0 0 0 0 0) none [] [] false).1 (by decide)).1,
   ((handshake_gate idCipher idCipher () () CipherType.Table (fun i => i)
      [0] Command.TcpConnect (Address.ipv4 0 0 0 0 0)
      (Address.ipv4 0 0 0 0 0) none [] [] false).2 (by decide)).1⟩

/-- Observable events of an `EncryptedWriter` over its lifetime: each
`write` puts one `Cipher::update` output on the underlying stream, and
the destructor puts the `Cipher::finalize` output there. -/
inductive EwEvent
  | wrote (bytes : List Nat)
  | finalWrite (bytes : List Nat)
deriving DecidableEq, Repr

def EwEvent.isFinalWrite : EwEvent → Bool
  | .finalWrite _ => true
  | _ => false

/-- Method `EncryptedWriter::finalize` (stream.rs lines 153-166): run the
cipher's `finalize` and write its output to the underlying writer. -/
def EncryptedWriter.finalizeOp {σ : Type} (c : StreamCipher σ) (s : σ) :
    σ × List Nat :=
  c.finalize s

/-- The `Drop` impl of `EncryptedWriter` (stream.rs lines 204-209): the
destructor calls `finalize`. -/
def EncryptedWriter.dropOp {σ : Type} (c : StreamCipher σ) (s : σ) :
    σ × List Nat :=
  EncryptedWriter.finalizeOp c s

/-- The event trace of one `EncryptedWriter` from construction to scope
exit: `bufs` are the buffers written before the writer goes out of scope
(any exit path, normal or error, corresponds to some such list), and the
destructor runs last. -/
def encryptedWriterLife {σ : Type} (c : StreamCipher σ) (s0 : σ)
    (bufs : List (List Nat)) : List EwEvent :=
  (cipherRun c s0 bufs).2.map EwEvent.wrote ++
    [EwEvent.finalWrite (EncryptedWriter.dropOp c
      (cipherRun c s0 bufs).1).2]

/-- C8: on every exit path (i.e. after any sequence of writes), the scope
exit of an `EncryptedWriter` invokes the cipher's `finalize` exactly once,
as the last event, and the final bytes it produces are written to the
underlying remote stream; the destructor's behavior is exactly
`EncryptedWriter::finalize`. -/
theorem encrypted_writer_finalize_on_drop {σ : Type} (c : StreamCipher σ)
    (s0 : σ) (bufs : List (List Nat)) :
    (encryptedWriterLife c s0 bufs).getLast? =
      some (EwEvent.finalWrite (c.finalize (cipherRun c s0 bufs).1).2) ∧
    (encryptedWriterLife c s0 bufs).countP EwEvent.isFinalWrite = 1 ∧
    EncryptedWriter.dropOp c (cipherRun c s0 bufs).1 =
      c.finalize (cipherRun c s0 bufs).1 := by
  refine ⟨?_, ?_, rfl⟩
  · simp [encryptedWriterLife, EncryptedWriter.dropOp,
      EncryptedWriter.finalizeOp]
  · simp [encryptedWriterLife, List.countP_append, List.countP_cons,
      List.countP_eq_zero, List.mem_map, EwEvent.isFinalWrite]

/-- One result of a `Reader::read` call on the underlying stream. -/
inductive ReadResult
  | bytes (data : List Nat)
  | ioErr (k : IoErrorKind)
deriving DecidableEq, Repr

/-- A call made on the wrapped cipher by `DecryptedReader`. -/
inductive CipherCall
  | upd (data : List Nat)
  | fin
deriving DecidableEq, Repr

def CipherCall.isFin : CipherCall → Bool
  | .fin => true
  | _ => false

/-- The result of one `DecryptedReader::fill_buf` call; `sliceFault` is
the Rust panic raised by `&self.buffer[self.pos .. self.buffer.len()]`
when `pos > buffer.len()`. -/
inductive FillResult
  | ok (bytes : List Nat)
  | ioError (k : IoErrorKind)
  | sliceFault
deriving DecidableEq, Repr

/-- The mutable state of a `DecryptedReader` (stream.rs lines 30-36), plus
a cursor into the scripted sequence of underlying read results. -/
structure DRState (σ : Type) where
  buffer : List Nat
  pos : Nat
  sent_final : Bool
  cipher : σ
  readIdx : Nat
deriving DecidableEq, Repr

/-- Method `DecryptedReader::fill_buf` (stream.rs lines 74-125), one call: when
the buffer is exhausted, read from the underlying reader; data goes
through `Cipher::update`; on the first `EndOfFile` set `sent_final`, run
`finalize`, and return the EOF error when it yields nothing (note the
early `return Err` paths skip the `self.pos = 0` reset); a later
`EndOfFile` returns the error without touching the cipher.  The third
component logs the cipher calls the step makes. -/
def dr_fill_buf {σ : Type} (c : StreamCipher σ) (reads : Nat → ReadResult)
    (st : DRState σ) : FillResult × DRState σ × List CipherCall :=
  if st.pos = st.buffer.length then
    match reads st.readIdx with
    | .bytes dat =>
        let p := c.update st.cipher dat
        (.ok p.2, ⟨p.2, 0, st.sent_final, p.1, st.readIdx + 1⟩, [.upd dat])
    | .ioErr k =>
        if k = IoErrorKind.EndOfFile then
          if st.sent_final then
            (.ioError k,
             ⟨st.buffer, st.pos, st.sent_final, st.cipher, st.readIdx + 1⟩,
             [])
          else
            let p := c.finalize st.cipher
            if p.2.length = 0 then
              (.ioError k, ⟨p.2, st.pos, true, p.1, st.readIdx + 1⟩, [.fin])
            else
              (.ok p.2, ⟨p.2, 0, true, p.1, st.readIdx + 1⟩, [.fin])
        else
          (.ioError k,
           ⟨st.buffer, st.pos, st.sent_final, st.cipher, st.readIdx + 1⟩,
           [])
  else if st.pos ≤ st.buffer.length then
    (.ok (st.buffer.drop st.pos), st, [])
  else
    (.sliceFault, st, [])

/-- Method `Buffer::consume` for `DecryptedReader`: advance `pos` by `amt`. -/
def dr_consume {σ : Type} (st : DRState σ) (amt : Nat) : DRState σ :=
  { st with pos := st.pos + amt }

/-- Run `n` successive `fill_buf` calls, accumulating the cipher calls. -/
def dr_run {σ : Type} (c : StreamCipher σ) (reads : Nat → ReadResult) :
    Nat → DRState σ → DRState σ × List CipherCall
  | 0, st => (st, [])
  | n + 1, st =>
      let r := dr_fill_buf c reads st
      let rest := dr_run c reads n r.2.1
      (rest.1, r.2.2 ++ rest.2)

theorem dr_step_cases {σ : Type} (c : StreamCipher σ)
    (reads : Nat → ReadResult) (st : DRState σ) :
    (st.sent_final = true →
      (dr_fill_buf c reads st).2.2.countP CipherCall.isFin = 0 ∧
      (dr_fill_buf c reads st).2.1.sent_final = true) ∧
    (st.sent_final = false →
      ((dr_fill_buf c reads st).2.2.countP CipherCall.isFin = 0 ∧
        (dr_fill_buf c reads st).2.1.sent_final = false) ∨
      ((dr_fill_buf c reads st).2.2.countP CipherCall.isFin = 1 ∧
        (dr_fill_buf c reads st).2.1.sent_final = true)) := by
  constructor
  · intro h
    unfold dr_fill_buf
    by_cases hp : st.pos = st.buffer.length
    · rw [if_pos hp]
      cases hr : reads st.readIdx with
      | bytes dat => simp [h, CipherCall.isFin]
      | ioErr k =>
          by_cases hk : k = IoErrorKind.EndOfFile
          · simp [hk, h, CipherCall.isFin]
          · simp [hk, h, CipherCall.isFin]
    · rw [if_neg hp]
      split <;> simp [h, CipherCall.isFin]
  · intro h
    unfold dr_fill_buf
    by_cases hp : st.pos = st.buffer.length
    · rw [if_pos hp]
      cases hr : reads st.readIdx with
      | bytes dat => left; simp [h, CipherCall.isFin]
      | ioErr k =>
          by_cases hk : k = IoErrorKind.EndOfFile
          · right
            simp only [hk, h, if_true, if_false, Bool.false_eq_true,
              if_neg Bool.false_ne_true]
            split <;> simp [CipherCall.isFin]
          · left; simp [hk, h, CipherCall.isFin]
    · rw [if_neg hp]
      left
      split <;> simp [h, CipherCall.isFin]

theorem dr_run_fin_count {σ : Type} (c : StreamCipher σ)
    (reads : Nat → ReadResult) : ∀ (n : Nat) (st : DRState σ),
    (st.sent_final = true →
      (dr_run c reads n st).2.countP CipherCall.isFin = 0) ∧
    (st.sent_final = false →
      (dr_run c reads n st).2.countP CipherCall.isFin ≤ 1) := by
  intro n
  induction n with
  | zero => intro st; simp [dr_run]
  | succ n ih =>
      intro st
      have hstep := dr_step_cases c reads st
      constructor
      · intro h
        obtain ⟨hc, hs2⟩ := hstep.1 h
        have hrest := (ih ((dr_fill_buf c reads st).2.1)).1 hs2
        simp [dr_run, List.countP_append, hc, hrest]
      · intro h
        rcases hstep.2 h with ⟨hc, hs2⟩ | ⟨hc, hs2⟩
        · have hrest := (ih ((dr_fill_buf c reads st).2.1)).2 hs2
          simpa [dr_run, List.countP_append, hc] using hrest
        · have hrest := (ih ((dr_fill_buf c reads st).2.1)).1 hs2
          simp [dr_run, List.countP_append, hc, hrest]

/-- The underlying read script of the C10 counterexample: one 7-byte-free
data chunk, then end of file forever (a closed TCP socket). -/
def c10reads : Nat → ReadResult :=
  fun i => if i = 0 then ReadResult.bytes [7]
           else ReadResult.ioErr IoErrorKind.EndOfFile

/-- C10 counterexample: with the identity stream cipher (empty `finalize`
tail, the normal stream-cipher case), read one nonempty chunk, drain it
(`consume 1`), hit end of file — `fill_buf` triggers `finalize`, sets
`sent_final` and returns the EOF error, but the early `return Err` skips
`self.pos = 0`, so the next `fill_buf` call evaluates
`buffer[1 .. 0]` and panics instead of returning the EndOfFile error. -/
theorem decrypted_reader_post_eof_counterexample :
    (dr_fill_buf idCipher c10reads
        (dr_consume
          (dr_fill_buf idCipher c10reads
            ⟨[], 0, false, (), 0⟩).2.1 1)).1 =
      FillResult.ioError IoErrorKind.EndOfFile ∧
    (dr_fill_buf idCipher c10reads
        (dr_consume
          (dr_fill_buf idCipher c10reads
            ⟨[], 0, false, (), 0⟩).2.1 1)).2.2 = [CipherCall.fin] ∧
    (dr_fill_buf idCipher c10reads
        (dr_fill_buf idCipher c10reads
          (dr_consume
            (dr_fill_buf idCipher c10reads
              ⟨[], 0, false, (), 0⟩).2.1 1)).2.1).1 =
      FillResult.sliceFault ∧
    (dr_fill_buf idCipher c10reads
        (dr_fill_buf idCipher c10reads
          (dr_consume
            (dr_fill_buf idCipher c10reads
              ⟨[], 0, false, (), 0⟩).2.1 1)).2.1).1 ≠
      FillResult.ioError IoErrorKind.EndOfFile := by
  decide

/-- C10 amended: the wrapped cipher's `finalize` runs at most once — the
first EndOfFile sets `sent_final`, which is never reset, and over any
number of further `fill_buf` calls no second `finalize` (and, once
`sent_final` holds, no cipher call at all) happens; and a later `fill_buf`
call returns the EndOfFile error untouched *provided* `pos` equals the
buffer length (finalize output drained through `consume`, or no data ever
buffered) — by `decrypted_reader_post_eof_counterexample`, when the
finalize tail is empty after nonempty data the later call instead panics
on the buffer slice. -/
theorem decrypted_reader_finalize_once {σ : Type} (c : StreamCipher σ)
    (reads : Nat → ReadResult) (st : DRState σ) (n : Nat) :
    (st.sent_final = false →
      (dr_run c reads n st).2.countP CipherCall.isFin ≤ 1) ∧
    (st.sent_final = true →
      (dr_run c reads n st).2.countP CipherCall.isFin = 0) ∧
    (st.sent_final = true → st.pos = st.buffer.length →
      reads st.readIdx = ReadResult.ioErr IoErrorKind.EndOfFile →
      dr_fill_buf c reads st =
        (FillResult.ioError IoErrorKind.EndOfFile,
         ⟨st.buffer, st.pos, true, st.cipher, st.readIdx + 1⟩, [])) := by
  refine ⟨(dr_run_fin_count c reads n st).2,
    (dr_run_fin_count c reads n st).1, ?_⟩
  intro hs hp hr
  rw [dr_fill_buf, if_pos hp, hr]
  simp [hs]

/-- Closed witness for `decrypted_reader_finalize_once`. -/
theorem decrypted_reader_finalize_once_witness :
    (dr_run idCipher c10reads 3 ⟨[], 0, false, (), 0⟩).2.countP
        CipherCall.isFin ≤ 1 ∧
    dr_fill_buf idCipher c10reads ⟨[3], 1, true, (), 5⟩ =
      (FillResult.ioError IoErrorKind.EndOfFile,
       ⟨[3], 1, true, (), 6⟩, []) :=
  ⟨(decrypted_reader_finalize_once idCipher c10reads
      ⟨[], 0, false, (), 0⟩ 3).1 (by decide),
   (decrypted_reader_finalize_once idCipher c10reads
      ⟨[3], 1, true, (), 5⟩ 0).2.2 (by decide) (by decide) (by decide)⟩

/-- A configured server (`ServerConfig`): hostname (abstracted to a
number), port, password, method. -/
structure ServerConfig where
  addr : Nat
  port : Nat
  password : List Nat
  method : CipherType
deriving DecidableEq, Repr

/-- The per-accept server-selection loop of `TcpRelayLocal::run`
(tcprelay/local.rs lines 295-336): for each server in order, consult the
resolver cache, otherwise do the host lookup (`none` = I/O error); an
error or an empty address list advances to the next server (`continue`),
a success uses the first address and stops.  The cache only ever holds
nonempty successful lookups, and within one accept each server is tried
once, so the cache stays constant across the failed attempts.  `none`
means the whole loop failed. -/
def selectServer (resolver : Nat → Option (List Nat))
    (cache : Nat → Option (List Nat)) :
    List ServerConfig → Option (ServerConfig × Nat)
  | [] => none
  | s :: rest =>
      match cache s.addr with
      | some addrs => some (s, addrs.headD 0)
      | none =>
          match resolver s.addr with
          | some addrs =>
              if addrs.isEmpty then selectServer resolver cache rest
              else some (s, addrs.headD 0)
          | none => selectServer resolver cache rest

/-- The outcome of one accepted connection's server selection:
`spawned` hands the connection to a worker thread; `panicAllFailed` is
`panic!("All proxy servers are failed!")`, which aborts the whole
process. -/
inductive AcceptOutcome
  | spawned (s : ServerConfig) (ip : Nat)
  | panicAllFailed
deriving DecidableEq, Repr

/-- One accept-loop iteration: `total()` attempts walk the configured
servers in round-robin order (a rotation of the list at the balancer's
current index); if none succeeds, the relay panics. -/
def acceptOnce (resolver cache : Nat → Option (List Nat))
    (servers : List ServerConfig) (idx : Nat) : AcceptOutcome :=
  match selectServer resolver cache (servers.rotate idx) with
  | some p => .spawned p.1 p.2
  | none => .panicAllFailed

/-- C9: if on a single accepted connection every configured server fails
to resolve (no cache entry, and the lookup errors or returns an empty
list), the relay aborts the whole process with
`panic!("All proxy servers are failed!")` instead of rejecting only that
connection. -/
theorem all_servers_failed_panics (resolver cache : Nat → Option (List Nat))
    (servers : List ServerConfig) (idx : Nat)
    (h : ∀ s ∈ servers, cache s.addr = none ∧
      (resolver s.addr = none ∨ resolver s.addr = some [])) :
    acceptOnce resolver cache servers idx =
      AcceptOutcome.panicAllFailed := by
  have key : ∀ l : List ServerConfig,
      (∀ s ∈ l, cache s.addr = none ∧
        (resolver s.addr = none ∨ resolver s.addr = some [])) →
      selectServer resolver cache l = none := by
    intro l
    induction l with
    | nil => intro _; rfl
    | cons s rest ih =>
        intro hl
        obtain ⟨hc, hr⟩ := hl s (List.mem_cons_self s rest)
        have hrest : selectServer resolver cache rest = none :=
          ih fun x hx => hl x (List.mem_cons_of_mem s hx)
        rcases hr with hr | hr <;> simp [selectServer, hc, hr, hrest]
  rw [acceptOnce, key (servers.rotate idx)
    fun s hs => h s (List.mem_rotate.1 hs)]

/-- Closed witness for `all_servers_failed_panics`. -/
theorem all_servers_failed_panics_witness :
    acceptOnce (fun _ => none) (fun _ => none)
      [⟨0, 8388, [1], CipherType.Aes256Cfb⟩] 0 =
      AcceptOutcome.panicAllFailed :=
  all_servers_failed_panics (fun _ => none) (fun _ => none)
    [⟨0, 8388, [1], CipherType.Aes256Cfb⟩] 0
    (fun _ _ => ⟨rfl, Or.inl rfl⟩)
